import Mathlib

/-!
A shallow embedding of the core of `beancount-language-server` (files
`src/beancount.rs` and `src/main.rs`): the symbol-index builder
(`Data::read` / `Data::new`), the completion resolver
(`State::handle_account`, `State::handle_identifier`,
`completion_response_from`) and the structural reformatter
(`reformat_postings`, `reformat_top_level`).

The concrete syntax tree is produced by the external `tree-sitter-beancount`
grammar; the embedding therefore takes the parsed tree as input, modelled as
a list of typed top-level nodes carrying exactly the fields, children and
source spans the Rust code reads.  Machine integers (`usize`) are modelled
as `Nat`; the one place where `usize` subtraction can underflow
(`50 - 4 - account.len()` in `reformat_postings`) is modelled explicitly as
a `panic` outcome.  Fallible Rust code returning `Result<_, Error>` is
modelled with `Except Err`.
-/

namespace BeanLS

/-- `tower_lsp::lsp_types::Position`: zero-based line and character. -/
structure Position where
  line : Nat
  character : Nat
deriving DecidableEq, Repr

/-- `tower_lsp::lsp_types::Range`: start and end positions. -/
structure Range where
  start : Position
  «end» : Position
deriving DecidableEq, Repr

/-- `tower_lsp::lsp_types::Location`: a URI (modelled as the file path
string) and a range. -/
structure Location where
  uri : String
  range : Range
deriving DecidableEq, Repr

/-- A `tree_sitter::Point`: row and column of a position in the source. -/
structure Point where
  row : Nat
  column : Nat
deriving DecidableEq, Repr

/-- The span of a syntax node: its start and end points. -/
structure Span where
  startP : Point
  endP : Point
deriving DecidableEq, Repr

/-- A leaf child of a syntax node, as the code reads it: its kind tag and
its source text (`utf8_text`).  Used for the children of `amount`, `plugin`
and `include` nodes. -/
structure Leaf where
  kind : String
  text : String
deriving DecidableEq, Repr

/-- An `amount` node: the code reads its children (`assert_eq!` on their
count in the reformatter, a filter on kind `currency` in the indexer). -/
structure AmountNode where
  children : List Leaf
deriving DecidableEq, Repr

/-- A `posting` node, carrying the fields the code reads: `account`
children (`children_by_field_name` returns a list, `child_by_field_name`
its head), `amount` children, and the optional `cost_spec` and `comment`
fields (their source texts). -/
structure PostingNode where
  accounts : List String
  amounts : List AmountNode
  cost_spec : Option String
  comment : Option String
deriving DecidableEq, Repr

/-- A child of a `posting_or_kv_list` node: the code filters the children
by kind, keeping `posting` and `comment` children and ignoring the rest. -/
inductive PKChild where
  | posting (p : PostingNode)
  | comment (text : String)
  | other
deriving DecidableEq, Repr

/-- A `transaction` node, carrying the fields the code reads: `date` and
`txn` field texts, the texts of the children of the `txn_strings` field
(when present), and the `posting_or_kv_list` children (a list of lists:
`children_by_field_name` returns every such field, `child_by_field_name`
the first). -/
structure TxnNode where
  date : Option String
  txn : Option String
  txn_strings : Option (List String)
  posting_or_kv_list : List (List PKChild)
deriving DecidableEq, Repr

/-- A top-level node of the parsed file, tagged by the kinds the code
dispatches on.  Kinds outside the handled set collapse to `otherD`. -/
inductive TopNode where
  | optionD (key value : Option String)
  | pluginD (children : List Leaf)
  | includeD (children : List Leaf)
  | openD (date account : Option String)
  | commodityD (currency : Option String)
  | transactionD (t : TxnNode)
  | newlineD
  | otherD
deriving DecidableEq, Repr

/-- A top-level node together with its source span. -/
structure TNode where
  node : TopNode
  span : Span
deriving DecidableEq, Repr

/-- The error type of `main.rs` (`enum Error`), extended with `panic` for
Rust panics (`unwrap` on `None`, failed `assert_eq!`, `usize` underflow)
and `outOfFuel` for recursion past the modelled depth bound. -/
inductive Err where
  | ioError
  | utf8Error
  | languageError
  | trieEmpty
  | uriToPathConversion
  | unexpectedFormat
  | invalidState
  | treeParseError
  | panic
  | outOfFuel
deriving DecidableEq, Repr

deriving instance DecidableEq for Except

/-- Rust `str::trim_start_matches('"')`: drop every leading quote. -/
def trimStartQuotes (s : String) : String :=
  ⟨s.data.dropWhile (· == '"')⟩

/-- Rust `str::trim_end_matches('"')`: drop every trailing quote. -/
def trimEndQuotes (s : String) : String :=
  ⟨(s.data.reverse.dropWhile (· == '"')).reverse⟩

/-- Rust `Path::is_absolute` on Unix: the path starts with `/`. -/
def isAbsolute (p : String) : Bool :=
  match p.data with
  | [] => false
  | c :: _ => c == '/'

/-- Rust `Path::parent` of an absolute file path: the prefix before the
last `/`. -/
def parentDir (p : String) : String :=
  ⟨((p.data.reverse.dropWhile (· ≠ '/')).drop 1).reverse⟩

/-- Resolution of an `include` filename against the including file's path
(`beancount.rs`, `Data::read`): an absolute filename is used as is, a
relative one is joined to the including file's parent directory. -/
def resolvePath (filePath filename : String) : String :=
  if isAbsolute filename then filename
  else if isAbsolute filePath then parentDir filePath ++ "/" ++ filename
  else filename

/-- The `Location` recorded for a `commodity` directive: the file's URI and
the directive's span (`Data::read`, lines 55-72). -/
def locationOf (path : String) (s : Span) : Location :=
  { uri := path
    range :=
      { start := { line := s.startP.row, character := s.startP.column }
        «end» := { line := s.endP.row, character := s.endP.column } } }

/-- `HashMap::insert`: point update, the new value overrides. -/
def mapInsert (m : String → Option Location) (k : String) (v : Location) :
    String → Option Location :=
  fun k' => if k' == k then some v else m k'

/-- `HashMap::extend`: entries of the second map override the first. -/
def extendMap (m₁ m₂ : String → Option Location) : String → Option Location :=
  fun k => match m₂ k with
  | some v => some v
  | none => m₁ k

/-- The symbol index (`struct Data` of `beancount.rs`).  The `HashMap` of
commodities is modelled extensionally as a partial function; the
`HashSet`s of accounts, currencies and payees are modelled as lists whose
membership is the set's membership. -/
structure Data where
  commodities : String → Option Location
  accounts : List String
  currencies : List String
  payees : List String
  text : String

/-- `Data::default()`. -/
def Data.default : Data :=
  { commodities := fun _ => none, accounts := [], currencies := [], payees := [], text := "" }

/-- The body of the `commodity` scan of `Data::read` (lines 47-75): on a
node of kind `commodity`, read the `currency` field
(`node_text_by_field_name`, `Error::InvalidState` when absent) and insert
a `Location` spanning the directive.  Later directives for the same code
override earlier ones (`HashMap::insert`). -/
def commodityStep (path : String) (m : String → Option Location) (n : TNode) :
    Except Err (String → Option Location) :=
  match n.node with
  | .commodityD currency =>
    match currency with
    | none => .error .invalidState
    | some c => .ok (mapInsert m c (locationOf path n.span))
  | _ => .ok m

/-- The whole `commodity` scan: fold `commodityStep` over the top-level
nodes from the empty map. -/
def ownCommodities (path : String) (nodes : List TNode) :
    Except Err (String → Option Location) :=
  nodes.foldlM (commodityStep path) (fun _ => none)

/-- The `transaction` nodes of the file, in order. -/
def transactionsOf (nodes : List TNode) : List TxnNode :=
  nodes.filterMap fun n =>
    match n.node with
    | .transactionD t => some t
    | _ => none

/-- The `posting` children of a `posting_or_kv_list` node (a filter on
kind, `Data::read` line 107). -/
def postingsOf (l : List PKChild) : List PostingNode :=
  l.filterMap fun c =>
    match c with
    | .posting p => some p
    | _ => none

/-- The account texts `Data::read` collects (lines 110-113): every
`account` field of every `posting` of every posting list of every
transaction. -/
def ownAccounts (nodes : List TNode) : List String :=
  (transactionsOf nodes).flatMap fun t =>
    t.posting_or_kv_list.flatMap fun l =>
      (postingsOf l).flatMap fun p => p.accounts

/-- The currency texts `Data::read` collects (lines 115-126): for every
`amount` field of every posting, the texts of its children of kind
`currency`. -/
def ownCurrencies (nodes : List TNode) : List String :=
  (transactionsOf nodes).flatMap fun t =>
    t.posting_or_kv_list.flatMap fun l =>
      (postingsOf l).flatMap fun p =>
        p.amounts.flatMap fun a =>
          (a.children.filter (fun c => c.kind == "currency")).map (·.text)

/-- The payees `Data::read` collects (lines 88-98): for each transaction
with a `txn_strings` field, the first child's text with surrounding quotes
trimmed (`trim_end_matches('"')` then `trim_start_matches('"')`). -/
def ownPayees (nodes : List TNode) : List String :=
  (transactionsOf nodes).filterMap fun t =>
    t.txn_strings.bind fun ts =>
      ts.head?.map fun payee => trimStartQuotes (trimEndQuotes payee)

/-- The resolved paths of the `include` directives (`Data::read`,
lines 134-161): for each top-level node of kind `include`, find its child
of kind `string` (skip the directive when there is none), trim the quotes
(`trim_start_matches` then `trim_end_matches`) and resolve against the
including file's path. -/
def includeTargets (filePath : String) (nodes : List TNode) : List String :=
  nodes.filterMap fun n =>
    match n.node with
    | .includeD children =>
      (children.find? (fun c => c.kind == "string")).map fun s =>
        resolvePath filePath (trimEndQuotes (trimStartQuotes s.text))
    | _ => none

/-- The modelled filesystem-plus-parser environment: a path maps to `none`
when `read_to_string` fails, to `some (text, none)` when the text reads but
`parser.parse` returns `None`, and to `some (text, some nodes)` when the
file parses to the given top-level nodes. -/
def FS : Type := String → Option (String × Option (List TNode))

/-- The merge step of `Data::read` (lines 165-170): extend the
accumulator's commodities, accounts and currencies with a loaded include's
— the payees and the text are left untouched there. -/
def mergeInclude (d inc : Data) : Data :=
  { d with
    commodities := extendMap d.commodities inc.commodities
    accounts := d.accounts ++ inc.accounts
    currencies := d.currencies ++ inc.currencies }

/-- `Data::read` of `beancount.rs`: read and parse the file at `path`,
scan its commodities (fatal `InvalidState` when a `commodity` node lacks
its `currency` field), collect accounts, currencies and payees, recursively
read every resolvable include — silently dropping every include whose read
fails (`filter_map` + `flatten`) — and merge: first extend the accumulator
with each loaded include's commodities, accounts and currencies (payees are
not extended from includes), then extend with this file's own findings, so
this file's commodity locations override included ones.  The structural
recursion of the Rust code is bounded here by explicit fuel; `outOfFuel`
stands for recursion beyond the modelled depth. -/
def Data.read (fs : FS) : Nat → String → Data → Except Err Data
  | 0, _, _ => .error .outOfFuel
  | fuel + 1, path, data =>
    match fs path with
    | none => .error .ioError
    | some (_, none) => .error .treeParseError
    | some (text, some nodes) => do
      let commodities ← ownCommodities path nodes
      let accounts := ownAccounts nodes
      let currencies := ownCurrencies nodes
      let payees := ownPayees nodes
      let included := (includeTargets path nodes).filterMap
        (fun p => (Data.read fs fuel p Data.default).toOption)
      let merged := included.foldl mergeInclude data
      .ok
        { commodities := extendMap merged.commodities commodities
          accounts := merged.accounts ++ accounts
          currencies := merged.currencies ++ currencies
          payees := merged.payees ++ payees
          text := text }

/-- `Data::new`: build the index of a root document from an empty
accumulator. -/
def Data.new (fs : FS) (fuel : Nat) (path : String) : Except Err Data :=
  Data.read fs fuel path Data.default

/-- Modelled from the spec: the external `trie_rs::Trie` used by `main.rs`
(its code is not part of this repository).  Section 4.2 of the spec gives
its contract: it stores a set of key sequences, and `predictive_search`
returns every stored sequence whose prefix (by segment equality) is the
query, the query itself included when stored. -/
structure Trie (α : Type) where
  stored : List (List α)

/-- Modelled from the spec: `trie_rs::Trie::predictive_search` — every
stored sequence the query is a prefix of. -/
def Trie.predictive_search [BEq α] (t : Trie α) (query : List α) :
    List (List α) :=
  t.stored.filter (fun s => query.isPrefixOf s)

/-- Rust `str::split(sep)` on a character list: the (possibly empty)
chunks between separators; the empty input yields one empty chunk, as in
Rust. -/
def splitChar (sep : Char) : List Char → List (List Char)
  | [] => [[]]
  | c :: rest =>
    if c == sep then [] :: splitChar sep rest
    else
      match splitChar sep rest with
      | [] => [[c]]
      | chunk :: chunks => (c :: chunk) :: chunks

/-- Rust `str::split(sep)` on a string. -/
def rustSplit (s : String) (sep : Char) : List String :=
  (splitChar sep s.data).map (fun chunk => ⟨chunk⟩)

/-- `account_sequence_from` of `main.rs` (lines 61-69): split the node's
text on `:` and drop the empty segments. -/
def account_sequence_from (text : String) : List String :=
  (rustSplit text ':').filter (fun s => !(s == ""))

/-- `completion_response_from` of `main.rs` (lines 71-89): with no trie
built yet fail with `TrieEmpty`; otherwise predictive-search the trie on
the sequence and label each result with its segments after the prefix,
joined by `:`. -/
def completion_response_from (sequence : List String)
    (trie : Option (Trie String)) : Except Err (List String) :=
  match trie with
  | some t =>
    .ok ((t.predictive_search sequence).map
      (fun seq => String.intercalate ":" (seq.drop sequence.length)))
  | none => .error .trieEmpty

/-- `State::handle_account` of `main.rs` (lines 105-119): split the node
text into segments; fewer than two segments yield nothing; otherwise drop
the trailing (incomplete) segment and search the account trie on the
remainder. -/
def handle_account (text : String) (account_trie : Option (Trie String)) :
    Except Err (Option (List String)) :=
  let sequence := account_sequence_from text
  if sequence.length < 2 then
    .ok none
  else
    (completion_response_from (sequence.dropLast) account_trie).map some

/-- The candidate top-level account roots of `State::handle_identifier`. -/
def rootAccounts : List String :=
  ["Expenses", "Assets", "Liabilities", "Equity", "Revenue"]

/-- Rust `str::starts_with`: the argument is a prefix of the receiver. -/
def rustStartsWith (s pre : String) : Bool :=
  pre.data.isPrefixOf s.data

/-- Rust `&account[1..]`: the string with its first character removed
(the account roots are ASCII, so byte slicing is character slicing). -/
def strTail (s : String) : String :=
  ⟨s.data.drop 1⟩

/-- `State::handle_identifier` of `main.rs` (lines 137-153): the grammar
misclassifies the first typed character as an error, so each candidate
root name minus its first character is compared against the observed
identifier text; the first matching candidate is returned alone, else
nothing. -/
def handle_identifier (identifier : String) : Option (List String) :=
  (rootAccounts.find? (fun account => rustStartsWith (strTail account) identifier)).map
    (fun account => [account])

/-- Rust `str::find('.')` combined with the slicing of `reformat_postings`
(lines 227-240): split a character list at the first `.`, returning the
part before it and the part after it. -/
def splitAtDot : List Char → Option (List Char × List Char)
  | [] => none
  | c :: rest =>
    if c == '.' then some ([], rest)
    else (splitAtDot rest).map (fun p => (c :: p.1, p.2))

/-- Rust `format!("{:>width$}", s)`: right-align `s` in a field of `width`
columns (no padding when `s` is at least that wide). -/
def rightAlign (width : Nat) (s : String) : String :=
  ⟨List.replicate (width - s.length) ' '⟩ ++ s

/-- The cost part of a formatted posting (`reformat_postings`,
lines 246-249): a space and the `cost_spec` field's text when present. -/
def costStr (p : PostingNode) : String :=
  match p.cost_spec with
  | some c => " " ++ c
  | none => ""

/-- The comment part of a formatted posting (`reformat_postings`,
lines 251-254): two spaces and the `comment` field's text when present. -/
def commentStr (p : PostingNode) : String :=
  match p.comment with
  | some c => "  " ++ c
  | none => ""

/-- The body of the posting map of `reformat_postings` (lines 199-256):
format one `posting` node.  The `account` field is required
(`InvalidState`); with an `amount` present, its children must number
exactly two (`assert_eq!`, a panic otherwise), the width `50 - 4 -
len(account)` underflows `usize` — a panic — when the account is longer
than 46 characters, and the number is right-aligned at that width, split
at its first `.` when it has one; the optional cost spec and comment
follow. -/
def formatPosting (p : PostingNode) : Except Err String :=
  match p.accounts.head? with
  | none => .error .invalidState
  | some account =>
    match p.amounts.head? with
    | some a =>
      match a.children with
      | [numberChild, currencyChild] =>
        if account.length > 46 then .error .panic
        else
          let width := 46 - account.length
          let currency := currencyChild.text
          let amount :=
            match splitAtDot numberChild.text.data with
            | some (numerator, denominator) =>
              " " ++ rightAlign width ⟨numerator⟩ ++ "." ++ ⟨denominator⟩ ++
                " " ++ currency
            | none => " " ++ rightAlign width numberChild.text ++ " " ++ currency
          .ok ("  " ++ account ++ amount ++ costStr p ++ commentStr p)
      | _ => .error .panic
    | none => .ok ("  " ++ account ++ "" ++ costStr p ++ commentStr p)

/-- Rust `Iterator::collect::<Result<Vec<_>, _>>` over the posting map:
format each posting in order, stopping at the first error. -/
def collectPostings : List PostingNode → Except Err (List String)
  | [] => .ok []
  | p :: ps =>
    match formatPosting p with
    | .error e => .error e
    | .ok s =>
      match collectPostings ps with
      | .error e => .error e
      | .ok rest => .ok (s :: rest)

/-- Rust `slice::join("\n")`: the empty list joins to the empty string, a
singleton to itself, a longer list with `"\n"` interspersed. -/
def joinNLStr : List String → String
  | [] => ""
  | [x] => x
  | x :: xs => x ++ "\n" ++ joinNLStr xs

/-- `reformat_postings` of `beancount.rs` (lines 182-261): the `comment`
children of the posting list, each rendered `"  <text>\n"` and joined with
`"\n"`, followed by the formatted `posting` children joined with `"\n"`. -/
def reformat_postings (children : List PKChild) : Except Err String :=
  let comments := (children.filterMap fun c =>
    match c with
    | .comment text => some ("  " ++ text ++ "\n")
    | _ => none)
  match collectPostings (postingsOf children) with
  | .error e => .error e
  | .ok formatted =>
    .ok (joinNLStr comments ++ joinNLStr formatted)

/-- The `newlines` closure of `reformat_top_level` (lines 268-271):
`"\n"` repeated `next.start.row - endRow + 1` times (`Nat` subtraction; in
a tree produced by the parser a sibling never starts before the previous
node ends, so the truncation is never exercised). -/
def newlinesStr (endRow : Nat) (next : TNode) : String :=
  ⟨List.replicate (next.span.startP.row - endRow + 1) '\n'⟩

/-- The per-node text of the handled branches of `reformat_top_level`:
what each branch passes to `format!` before the trailing newlines and the
recursive call.  Factored out so that theorems can speak about one node's
rendering; `reformat_top_level` below uses it for each handled branch
exactly as the Rust branches build their strings. -/
def renderNode : TopNode → Except Err String
  | .optionD key value =>
    match key with
    | none => .error .invalidState
    | some k =>
      match value with
      | none => .error .invalidState
      | some v => .ok ("option " ++ k ++ " " ++ v)
  | .pluginD children =>
    match children.get? 1 with
    | none => .error .panic
    | some c => .ok ("plugin " ++ c.text)
  | .includeD children =>
    match children.get? 1 with
    | none => .error .panic
    | some c => .ok ("include " ++ c.text)
  | .openD date account =>
    match date with
    | none => .error .invalidState
    | some d =>
      match account with
      | none => .error .invalidState
      | some a => .ok (d ++ " open " ++ a)
  | .transactionD t =>
    match t.date with
    | none => .error .invalidState
    | some date =>
      match t.txn with
      | none => .error .invalidState
      | some txn =>
        match t.txn_strings with
        | none => .error .invalidState
        | some ts =>
          match (match ts with
                 | [] => Except.error Err.panic
                 | [payee] => Except.ok (date ++ " " ++ txn ++ " " ++ payee)
                 | [payee, narration] =>
                   Except.ok (date ++ " " ++ txn ++ " " ++ payee ++ " " ++
                     narration)
                 | _ => Except.error Err.unexpectedFormat) with
          | .error e => .error e
          | .ok firstLine =>
            match t.posting_or_kv_list.head? with
            | none => .error .invalidState
            | some pl =>
              match reformat_postings pl with
              | .error e => .error e
              | .ok ps => .ok (firstLine ++ "\n" ++ ps)
  | _ => .error .invalidState

/-- Whether `reformat_top_level` handles a node's kind with a directive
branch (the `option`, `plugin`, `include`, `open` and `transaction`
arms). -/
def handledKind : TopNode → Bool
  | .optionD _ _ => true
  | .pluginD _ => true
  | .includeD _ => true
  | .openD _ _ => true
  | .transactionD _ => true
  | _ => false

/-- `reformat_top_level` of `beancount.rs` (lines 263-391), as a recursion
over the remaining top-level siblings (the Rust code walks a cursor; the
`file` root dispatches to its child list).  A handled directive renders its
text and, when a next sibling exists, appends the `newlines` string and the
recursion on the rest; a `"\n"` node emits `"\n"` before the recursion when
a sibling follows and nothing otherwise; any other kind — `commodity`
included — renders the empty string and does not recurse, ending the
traversal. -/
def reformat_top_level : List TNode → Except Err String
  | [] => .ok ""
  | n :: rest =>
    let cont : String → Except Err String := fun s =>
      match rest with
      | [] => .ok s
      | m :: _ =>
        (reformat_top_level rest).map
          (fun r => s ++ newlinesStr n.span.endP.row m ++ r)
    match n.node with
    | .optionD key value => do
      let s ← renderNode (.optionD key value)
      cont s
    | .pluginD children => do
      let s ← renderNode (.pluginD children)
      cont s
    | .includeD children => do
      let s ← renderNode (.includeD children)
      cont s
    | .openD date account => do
      let s ← renderNode (.openD date account)
      cont s
    | .transactionD t => do
      let s ← renderNode (.transactionD t)
      cont s
    | .newlineD =>
      match rest with
      | [] => .ok ""
      | _ => (reformat_top_level rest).map (fun r => "\n" ++ r)
    | _ => .ok ""

/-! ### Lemmas about the merge of included indices -/

theorem extendMap_some_right {m₁ m₂ : String → Option Location} {k : String}
    {v : Location} (h : m₂ k = some v) : extendMap m₁ m₂ k = some v := by
  simp [extendMap, h]

theorem extendMap_none_right {m₁ m₂ : String → Option Location} {k : String}
    (h : m₂ k = none) : extendMap m₁ m₂ k = m₁ k := by
  simp [extendMap, h]

theorem extendMap_isSome_left {m₁ m₂ : String → Option Location} {k : String}
    (h : (m₁ k).isSome) : ((extendMap m₁ m₂) k).isSome := by
  cases h₂ : m₂ k <;> simp [extendMap, h₂, h]

theorem accounts_foldl_mergeInclude (l : List Data) (d : Data) :
    (l.foldl mergeInclude d).accounts = d.accounts ++ l.flatMap Data.accounts := by
  induction l generalizing d with
  | nil => simp
  | cons x xs ih => simp [List.foldl, ih, mergeInclude, List.append_assoc]

theorem currencies_foldl_mergeInclude (l : List Data) (d : Data) :
    (l.foldl mergeInclude d).currencies = d.currencies ++ l.flatMap Data.currencies := by
  induction l generalizing d with
  | nil => simp
  | cons x xs ih => simp [List.foldl, ih, mergeInclude, List.append_assoc]

theorem payees_foldl_mergeInclude (l : List Data) (d : Data) :
    (l.foldl mergeInclude d).payees = d.payees := by
  induction l generalizing d with
  | nil => rfl
  | cons x xs ih => simp [List.foldl, ih, mergeInclude]

theorem commodities_foldl_mono (l : List Data) (d : Data) (k : String)
    (h : (d.commodities k).isSome) :
    ((l.foldl mergeInclude d).commodities k).isSome := by
  induction l generalizing d with
  | nil => exact h
  | cons x xs ih =>
    exact ih (mergeInclude d x) (extendMap_isSome_left h)

theorem commodities_foldl_isSome (l : List Data) (k : String) :
    ∀ (d di : Data), di ∈ l → (di.commodities k).isSome →
    ((l.foldl mergeInclude d).commodities k).isSome := by
  induction l with
  | nil => intro d di hmem _; cases hmem
  | cons x xs ih =>
    intro d di hmem h
    simp only [List.foldl_cons]
    rcases List.mem_cons.mp hmem with h₁ | h₁
    · subst h₁
      apply commodities_foldl_mono
      obtain ⟨v, hv⟩ := Option.isSome_iff_exists.mp h
      rw [show (mergeInclude d di).commodities =
            extendMap d.commodities di.commodities from rfl,
        extendMap_some_right hv]
      rfl
    · exact ih (mergeInclude d x) di h₁ h

/-- Every location the commodity scan records carries the scanned file's
URI. -/
theorem commodityStep_fold_uri (path : String) :
    ∀ (nodes : List TNode) (m₀ : String → Option Location),
      (∀ c loc, m₀ c = some loc → loc.uri = path) →
      ∀ m, List.foldlM (commodityStep path) m₀ nodes = .ok m →
      ∀ c loc, m c = some loc → loc.uri = path := by
  intro nodes
  induction nodes with
  | nil =>
    intro m₀ h₀ m hm
    simp only [List.foldlM] at hm
    cases hm
    exact h₀
  | cons n ns ih =>
    intro m₀ h₀ m hm
    simp only [List.foldlM] at hm
    cases hstep : commodityStep path m₀ n with
    | error e => rw [hstep] at hm; cases hm
    | ok m₁ =>
      rw [hstep] at hm
      refine ih m₁ ?_ m hm
      intro c loc hc
      unfold commodityStep at hstep
      rcases hn : n.node with _ | _ | _ | _ | currency | _ | _ | _ <;>
        rw [hn] at hstep <;>
        first
        | (cases hstep; exact h₀ c loc hc)
        | skip
      cases currency with
      | none => simp at hstep
      | some cc =>
        simp only at hstep
        cases hstep
        by_cases hck : c == cc
        · rw [mapInsert, if_pos hck] at hc
          cases hc
          rfl
        · rw [mapInsert, if_neg hck] at hc
          exact h₀ c loc hc

theorem ownCommodities_uri {path : String} {nodes : List TNode}
    {m : String → Option Location} (h : ownCommodities path nodes = .ok m)
    {c : String} {loc : Location} (hc : m c = some loc) : loc.uri = path :=
  commodityStep_fold_uri path nodes (fun _ => none) (by intro c loc h; cases h)
    m h c loc hc

/-- Unfolding of `Data.read` at positive fuel on a file that reads and
parses, when the commodity scan succeeds. -/
theorem Data.read_parsed {fs : FS} {path text : String} {nodes : List TNode}
    {m : String → Option Location} (fuel : Nat) (data : Data)
    (hfs : fs path = some (text, some nodes))
    (hm : ownCommodities path nodes = .ok m) :
    Data.read fs (fuel + 1) path data =
      .ok
        (let merged := ((includeTargets path nodes).filterMap
            (fun p => (Data.read fs fuel p Data.default).toOption)).foldl
            mergeInclude data
         { commodities := extendMap merged.commodities m
           accounts := merged.accounts ++ ownAccounts nodes
           currencies := merged.currencies ++ ownCurrencies nodes
           payees := merged.payees ++ ownPayees nodes
           text := text }) := by
  simp only [Data.read, hfs, hm]
  rfl

theorem Data.read_io_error {fs : FS} {path : String} (fuel : Nat) (data : Data)
    (hfs : fs path = none) :
    Data.read fs (fuel + 1) path data = .error .ioError := by
  simp [Data.read, hfs]

theorem Data.read_parse_error {fs : FS} {path text : String} (fuel : Nat)
    (data : Data) (hfs : fs path = some (text, none)) :
    Data.read fs (fuel + 1) path data = .error .treeParseError := by
  simp [Data.read, hfs]

theorem Except.toOption_ok (d : Data) :
    (Except.ok d : Except Err Data).toOption = some d := rfl

theorem Data.default_accounts : Data.default.accounts = [] := rfl

theorem Data.default_currencies : Data.default.currencies = [] := rfl

theorem Data.default_payees : Data.default.payees = [] := rfl

/-! ### Concrete fixture trees and a fixture filesystem -/

/-- A transaction inside the included fixture file: payee `"incpayee"`,
one posting on `Assets:Inc` of `1.00 USD`. -/
def incTxnNode : TxnNode :=
  { date := some "2021-07-11", txn := some "*"
    txn_strings := some ["\"incpayee\""]
    posting_or_kv_list :=
      [[.posting
          { accounts := ["Assets:Inc"]
            amounts := [⟨[⟨"number", "1.00"⟩, ⟨"currency", "USD"⟩]⟩]
            cost_spec := none, comment := none }]] }

/-- A transaction inside the root fixture file: payee `"foo"`, one posting
on `Expenses:Cash` of `100.00 EUR`. -/
def mainTxnNode : TxnNode :=
  { date := some "2021-07-10", txn := some "!"
    txn_strings := some ["\"foo\"", "\"bar\""]
    posting_or_kv_list :=
      [[.posting
          { accounts := ["Expenses:Cash"]
            amounts := [⟨[⟨"number", "100.00"⟩, ⟨"currency", "EUR"⟩]⟩]
            cost_spec := none, comment := none }]] }

/-- The included fixture file: commodities `USD` and `EUR`, then the
transaction with payee `"incpayee"`. -/
def incNodes : List TNode :=
  [{ node := .commodityD (some "USD"), span := ⟨⟨0, 0⟩, ⟨2, 17⟩⟩ },
   { node := .commodityD (some "EUR"), span := ⟨⟨3, 0⟩, ⟨4, 0⟩⟩ },
   { node := .transactionD incTxnNode, span := ⟨⟨5, 0⟩, ⟨8, 0⟩⟩ }]

/-- The root fixture file: one include that loads, one include whose target
is unreadable, an own `EUR` commodity, and a transaction. -/
def mainNodes : List TNode :=
  [{ node := .includeD [⟨"include", "include"⟩, ⟨"string", "\"inc.bean\""⟩]
     span := ⟨⟨0, 0⟩, ⟨1, 0⟩⟩ },
   { node := .includeD [⟨"include", "include"⟩, ⟨"string", "\"missing.bean\""⟩]
     span := ⟨⟨1, 0⟩, ⟨2, 0⟩⟩ },
   { node := .commodityD (some "EUR"), span := ⟨⟨3, 0⟩, ⟨4, 0⟩⟩ },
   { node := .transactionD mainTxnNode, span := ⟨⟨5, 0⟩, ⟨8, 0⟩⟩ }]

/-- A second root fixture file with a single include and an own `EUR`
commodity (no `USD` of its own). -/
def main2Nodes : List TNode :=
  [{ node := .includeD [⟨"include", "include"⟩, ⟨"string", "\"inc.bean\""⟩]
     span := ⟨⟨0, 0⟩, ⟨1, 0⟩⟩ },
   { node := .commodityD (some "EUR"), span := ⟨⟨2, 0⟩, ⟨3, 0⟩⟩ }]

/-- The fixture filesystem: two root documents, the included file, an
unparsable file, and nothing else (in particular `/missing.bean` does not
read). -/
def exFs : FS := fun p =>
  if p == "/main.bean" then some ("maintext", some mainNodes)
  else if p == "/main2.bean" then some ("main2text", some main2Nodes)
  else if p == "/inc.bean" then some ("inctext", some incNodes)
  else if p == "/bad.bean" then some ("badtext", none)
  else none

/-! ### C5: include failures are skipped, root failures are fatal -/

/-- C5: an include directive whose target fails to resolve, read or parse
is silently skipped and contributes nothing to the merged index — the
build still succeeds and everything in the merged accounts set comes from
the root's own findings or from a successfully loaded include — whereas
unreadability or unparseability of the root file itself makes the whole
`Data::new` call return an error. -/
theorem c5_include_failures_skipped_root_failures_fatal
    (fs : FS) (fuel : Nat) (path : String) :
    (fs path = none → Data.new fs (fuel + 1) path = .error .ioError) ∧
    (∀ text, fs path = some (text, none) →
      Data.new fs (fuel + 1) path = .error .treeParseError) ∧
    (∀ text nodes m, fs path = some (text, some nodes) →
      ownCommodities path nodes = .ok m →
      ∃ d, Data.new fs (fuel + 1) path = .ok d ∧
        ∀ a, a ∈ d.accounts → a ∈ ownAccounts nodes ∨
          ∃ tgt, tgt ∈ includeTargets path nodes ∧
            ∃ di, Data.read fs fuel tgt Data.default = .ok di ∧
              a ∈ di.accounts) := by
  refine ⟨fun h => Data.read_io_error fuel _ h,
    fun text h => Data.read_parse_error fuel _ h, ?_⟩
  intro text nodes m hfs hm
  refine ⟨_, Data.read_parsed fuel Data.default hfs hm, ?_⟩
  intro a ha
  simp only [accounts_foldl_mergeInclude, Data.default_accounts,
    List.nil_append, List.mem_append, List.mem_flatMap,
    List.mem_filterMap] at ha
  rcases ha with ⟨di, ⟨tgt, htgt, hdi⟩, hadi⟩ | ha
  · refine Or.inr ⟨tgt, htgt, di, ?_, hadi⟩
    cases hread : Data.read fs fuel tgt Data.default with
    | error e => rw [hread] at hdi; cases hdi
    | ok d' =>
      rw [hread] at hdi
      cases hdi
      rfl
  · exact Or.inl ha

/-! ### C1: what the merge takes from loaded includes -/

/-- C1 (amended): the index built for a root document starts from the
union of all successfully loaded included indices for the accounts and
currencies sets and the commodities map, but **not** for payees: a loaded
include's payees are discarded, and the merged payees are exactly the root
document's own. -/
theorem c1_merge_unions_accounts_currencies_but_not_payees
    (fs : FS) (fuel : Nat) (path text : String) (nodes : List TNode)
    (m : String → Option Location) (d : Data)
    (hfs : fs path = some (text, some nodes))
    (hm : ownCommodities path nodes = .ok m)
    (hd : Data.new fs (fuel + 1) path = .ok d) :
    (∀ tgt di, tgt ∈ includeTargets path nodes →
      Data.read fs fuel tgt Data.default = .ok di →
      (∀ a, a ∈ di.accounts → a ∈ d.accounts) ∧
      (∀ c, c ∈ di.currencies → c ∈ d.currencies) ∧
      (∀ k, (di.commodities k).isSome → (d.commodities k).isSome)) ∧
    d.payees = ownPayees nodes := by
  rw [Data.new, Data.read_parsed fuel Data.default hfs hm] at hd
  injection hd with hd
  subst hd
  constructor
  · intro tgt di htgt hread
    have hdi : di ∈ (includeTargets path nodes).filterMap
        (fun p => (Data.read fs fuel p Data.default).toOption) :=
      List.mem_filterMap.mpr ⟨tgt, htgt, by rw [hread]; rfl⟩
    refine ⟨?_, ?_, ?_⟩
    · intro a hav
      simp only [accounts_foldl_mergeInclude, Data.default_accounts,
        List.nil_append, List.mem_append, List.mem_flatMap]
      exact Or.inl ⟨di, hdi, hav⟩
    · intro c hcv
      simp only [currencies_foldl_mergeInclude, Data.default_currencies,
        List.nil_append, List.mem_append, List.mem_flatMap]
      exact Or.inl ⟨di, hdi, hcv⟩
    · intro k hk
      exact extendMap_isSome_left
        (commodities_foldl_isSome _ k Data.default di hdi hk)
  · simp only [payees_foldl_mergeInclude, Data.default_payees,
      List.nil_append]

/-- C1 counterexample: in the fixture, `/inc.bean` loads successfully and
its index records the payee `"incpayee"`, the root `/main.bean` includes
it, yet the merged index of the root does not contain that payee — so the
claim's payee clause fails on the code. -/
theorem c1_counterexample_included_payee_dropped :
    (Data.read exFs 1 "/inc.bean" Data.default).toOption.map
      (fun di => di.payees.contains "incpayee") = some true ∧
    "/inc.bean" ∈ includeTargets "/main.bean" mainNodes ∧
    (Data.new exFs 2 "/main.bean").toOption.map
      (fun d => d.payees.contains "incpayee") = some false := by
  refine ⟨by decide, by decide, by decide⟩

/-! ### C2: commodity locations across the merge -/

/-- C2: when the root ledger itself declares a commodity code, the merged
map records the root's own location (root overrides includes) with the
root's URI; when the root does not declare a code and its single include's
own scan does, the merged map records the included file's location, whose
URI is the included file's. -/
theorem c2_commodity_location_merge
    (fs : FS) (fuel : Nat) (path text : String) (nodes : List TNode)
    (m : String → Option Location) (d : Data)
    (hfs : fs path = some (text, some nodes))
    (hm : ownCommodities path nodes = .ok m)
    (hd : Data.new fs (fuel + 2) path = .ok d) :
    (∀ c loc, m c = some loc → d.commodities c = some loc ∧ loc.uri = path) ∧
    (∀ c tgt text₁ nodes₁ m₁ loc₁,
      m c = none →
      includeTargets path nodes = [tgt] →
      fs tgt = some (text₁, some nodes₁) →
      ownCommodities tgt nodes₁ = .ok m₁ →
      m₁ c = some loc₁ →
      d.commodities c = some loc₁ ∧ loc₁.uri = tgt) := by
  rw [Data.new, Data.read_parsed (fuel + 1) Data.default hfs hm] at hd
  injection hd with hd
  subst hd
  constructor
  · intro c loc hc
    exact ⟨extendMap_some_right hc, ownCommodities_uri hm hc⟩
  · intro c tgt text₁ nodes₁ m₁ loc₁ hc htgts hfs₁ hm₁ hloc₁
    have hread : Data.read fs (fuel + 1) tgt Data.default =
        .ok
          (let merged := ((includeTargets tgt nodes₁).filterMap
              (fun p => (Data.read fs fuel p Data.default).toOption)).foldl
              mergeInclude Data.default
           { commodities := extendMap merged.commodities m₁
             accounts := merged.accounts ++ ownAccounts nodes₁
             currencies := merged.currencies ++ ownCurrencies nodes₁
             payees := merged.payees ++ ownPayees nodes₁
             text := text₁ }) :=
      Data.read_parsed fuel Data.default hfs₁ hm₁
    refine ⟨?_, ownCommodities_uri hm₁ hloc₁⟩
    show extendMap _ m c = some loc₁
    rw [extendMap_none_right hc]
    rw [htgts]
    simp only [List.filterMap, hread, Except.toOption_ok, List.foldl]
    show extendMap Data.default.commodities (extendMap _ m₁) c = some loc₁
    exact extendMap_some_right (extendMap_some_right hloc₁)

/-- Witness for C5 on the fixture: an unreadable root errors, an
unparsable root errors, and the root with one unreadable include still
builds, its accounts all traceable to the root or the loaded include. -/
theorem c5_witness :
    Data.new exFs 2 "/missing.bean" = .error .ioError ∧
    Data.new exFs 2 "/bad.bean" = .error .treeParseError ∧
    ∃ d, Data.new exFs 2 "/main.bean" = .ok d ∧
      ∀ a, a ∈ d.accounts → a ∈ ownAccounts mainNodes ∨
        ∃ tgt, tgt ∈ includeTargets "/main.bean" mainNodes ∧
          ∃ di, Data.read exFs 1 tgt Data.default = .ok di ∧
            a ∈ di.accounts :=
  ⟨(c5_include_failures_skipped_root_failures_fatal exFs 1 "/missing.bean").1
      rfl,
   (c5_include_failures_skipped_root_failures_fatal exFs 1 "/bad.bean").2.1
      "badtext" rfl,
   (c5_include_failures_skipped_root_failures_fatal exFs 1 "/main.bean").2.2
      "maintext" mainNodes _ rfl rfl⟩

/-- Witness for C1 on the fixture: the root build succeeds, the loaded
include's accounts all appear in the merged index, and the merged payees
are exactly the root's own. -/
theorem c1_witness :
    ∃ d di, Data.new exFs 2 "/main.bean" = .ok d ∧
      Data.read exFs 1 "/inc.bean" Data.default = .ok di ∧
      (∀ a, a ∈ di.accounts → a ∈ d.accounts) ∧
      d.payees = ownPayees mainNodes := by
  refine ⟨_, _, rfl, rfl, ?_, ?_⟩
  · exact fun a ha =>
      ((c1_merge_unions_accounts_currencies_but_not_payees exFs 1
          "/main.bean" "maintext" mainNodes _ _ rfl rfl rfl).1
        "/inc.bean" _ (by decide) rfl).1 a ha
  · exact (c1_merge_unions_accounts_currencies_but_not_payees exFs 1
      "/main.bean" "maintext" mainNodes _ _ rfl rfl rfl).2

/-! ### C3: account-kind completion -/

/-- The account trie of the completion fixture, storing the segment
sequences of `Expenses:F`, `Expenses:Foo:Bar` and `Expenses:Foo:Qux`. -/
def exTrie : Trie String :=
  ⟨[["Expenses", "F"], ["Expenses", "Foo", "Bar"], ["Expenses", "Foo", "Qux"]]⟩

/-- C3: on an `account`-kind node, fewer than two colon segments yield
nothing; with at least two, the trailing segment is dropped, the account
trie is predictive-searched on the remaining prefix, and each returned
label is a stored sequence's segments after the prefix joined by `:` — a
suffix to append, not a full path. -/
theorem c3_account_completion (text : String) (trie : Trie String) :
    ((account_sequence_from text).length < 2 →
      handle_account text (some trie) = .ok none) ∧
    (¬ (account_sequence_from text).length < 2 →
      handle_account text (some trie) =
        .ok (some
          ((trie.predictive_search (account_sequence_from text).dropLast).map
            (fun s => String.intercalate ":"
              (s.drop (account_sequence_from text).dropLast.length)))) ∧
      ∀ lab,
        lab ∈ ((trie.predictive_search (account_sequence_from text).dropLast).map
          (fun s => String.intercalate ":"
            (s.drop (account_sequence_from text).dropLast.length))) →
        ∃ s, s ∈ trie.stored ∧
          (account_sequence_from text).dropLast.isPrefixOf s = true ∧
          lab = String.intercalate ":"
            (s.drop (account_sequence_from text).dropLast.length)) := by
  constructor
  · intro h
    simp [handle_account, h]
  · intro h
    refine ⟨by simp only [handle_account, if_neg h, completion_response_from]; rfl, ?_⟩
    intro lab hlab
    obtain ⟨s, hs, hlabeq⟩ := List.mem_map.mp hlab
    obtain ⟨hstored, hpre⟩ := List.mem_filter.mp hs
    exact ⟨s, hstored, hpre, hlabeq.symm⟩

/-- Witness for C3: with one colon segment the resolver returns nothing;
for the query text `Expenses:F` against the fixture trie, every returned
label is drawn from `F`, `Foo:Bar`, `Foo:Qux`. -/
theorem c3_witness :
    handle_account "Expenses" (some exTrie) = .ok none ∧
    ∃ labels, handle_account "Expenses:F" (some exTrie) = .ok (some labels) ∧
      ∀ lab, lab ∈ labels →
        lab = "F" ∨ lab = "Foo:Bar" ∨ lab = "Foo:Qux" :=
  ⟨(c3_account_completion "Expenses" exTrie).1 (by decide),
   ⟨_, ((c3_account_completion "Expenses:F" exTrie).2 (by decide)).1,
    by decide⟩⟩

/-! ### C8: identifier-kind completion -/

/-- The head of a string a nonempty prefix matches is the prefix's own
head. -/
theorem rustStartsWith_head {s t : String} (h : rustStartsWith s t = true)
    (hne : t.data ≠ []) : t.data.head? = s.data.head? := by
  unfold rustStartsWith at h
  obtain ⟨u, hu⟩ := List.isPrefixOf_iff_prefix.mp h
  rw [← hu]
  cases hd : t.data with
  | nil => exact absurd hd hne
  | cons c cs => rfl

/-- C8: on an `identifier`-kind node with nonempty observed text, the
resolver compares each candidate root name minus its first character
against the text and returns exactly the single matching full root name
when one matches (the match is unique for nonempty text), and nothing when
no candidate matches. -/
theorem c8_identifier_completion (identifier : String)
    (hne : identifier ≠ "") :
    ((∃ account, account ∈ rootAccounts ∧
        rustStartsWith (strTail account) identifier = true) →
      ∃ account, handle_identifier identifier = some [account] ∧
        account ∈ rootAccounts ∧
        rustStartsWith (strTail account) identifier = true ∧
        ∀ b, b ∈ rootAccounts →
          rustStartsWith (strTail b) identifier = true → b = account) ∧
    ((∀ account, account ∈ rootAccounts →
        rustStartsWith (strTail account) identifier = false) →
      handle_identifier identifier = none) := by
  have hne' : identifier.data ≠ [] := by
    intro hd
    exact hne (String.ext_iff.mpr (by rw [hd]))
  constructor
  · rintro ⟨a, ha, hsw⟩
    cases hf : rootAccounts.find?
        (fun account => rustStartsWith (strTail account) identifier) with
    | none =>
      exact absurd hsw (by simpa using List.find?_eq_none.mp hf a ha)
    | some acc =>
      have hmem := List.mem_of_find?_eq_some hf
      have hpred := List.find?_some hf
      refine ⟨acc, by simp [handle_identifier, hf], hmem, hpred, ?_⟩
      intro b hb hswb
      have hcomb : (strTail b).data.head? = (strTail acc).data.head? :=
        (rustStartsWith_head hswb hne').symm.trans
          (rustStartsWith_head hpred hne')
      simp only [rootAccounts, List.mem_cons, List.not_mem_nil, or_false] at hb hmem
      rcases hb with rfl | rfl | rfl | rfl | rfl <;>
        rcases hmem with rfl | rfl | rfl | rfl | rfl <;>
        first
        | rfl
        | exact absurd hcomb (by decide)
  · intro hall
    cases hf : rootAccounts.find?
        (fun account => rustStartsWith (strTail account) identifier) with
    | none => simp [handle_identifier, hf]
    | some acc =>
      have := List.find?_some hf
      rw [hall acc (List.mem_of_find?_eq_some hf)] at this
      cases this

/-- Witness for C8: typing `Expe` makes the grammar eat the first
character, so the observed identifier text is `Expe` minus its head; the
resolver returns exactly `Expenses`, the unique matching root. -/
theorem c8_witness :
    handle_identifier (strTail "Expe") = some ["Expenses"] ∧
    ∀ b, b ∈ rootAccounts →
      rustStartsWith (strTail b) (strTail "Expe") = true → b = "Expenses" := by
  obtain ⟨acc, heq, hmem, hsw, huniq⟩ :=
    (c8_identifier_completion (strTail "Expe") (by decide)).1
      ⟨"Expenses", by decide, by decide⟩
  have hacc : acc = "Expenses" := (huniq "Expenses" (by decide) (by decide)).symm
  subst hacc
  exact ⟨heq, huniq⟩

/-- Witness for C2 on the fixture: the root `/main2.bean` and its include
both declare `EUR`, and the merged location for `EUR` is the root's; only
the include declares `USD`, and the merged location for `USD` carries the
included file's URI. -/
theorem c2_witness :
    ∃ d, Data.new exFs 2 "/main2.bean" = .ok d ∧
      (∃ loc, d.commodities "EUR" = some loc ∧ loc.uri = "/main2.bean") ∧
      (∃ loc, d.commodities "USD" = some loc ∧ loc.uri = "/inc.bean") := by
  refine ⟨_, rfl, ?_, ?_⟩
  · obtain ⟨hl, hu⟩ := (c2_commodity_location_merge exFs 0 "/main2.bean"
      "main2text" main2Nodes _ _ rfl rfl rfl).1 "EUR" _ rfl
    exact ⟨_, hl, hu⟩
  · obtain ⟨hl, hu⟩ := (c2_commodity_location_merge exFs 0 "/main2.bean"
      "main2text" main2Nodes _ _ rfl rfl rfl).2 "USD" "/inc.bean" "inctext"
      incNodes _ _ rfl rfl rfl rfl rfl
    exact ⟨_, hl, hu⟩

/-! ### Lemmas about the reformatter -/

theorem rightAlign_length {w : Nat} {s : String} (h : s.length ≤ w) :
    (rightAlign w s).length = w := by
  show ((⟨List.replicate (w - s.length) ' '⟩ : String) ++ s).length = w
  rw [String.length_append]
  show (List.replicate (w - s.length) ' ').length + s.length = w
  rw [List.length_replicate]
  exact Nat.sub_add_cancel h

/-- Unfolding of `reformat_top_level` on a handled directive at the head:
the node's own rendering, then — when a sibling follows — the newline run
and the rendering of the rest. -/
theorem reformat_top_level_cons_handled (n : TNode) (rest : List TNode)
    (h : handledKind n.node = true) :
    reformat_top_level (n :: rest) =
      (renderNode n.node).bind (fun s =>
        match rest with
        | [] => .ok s
        | m :: _ =>
          (reformat_top_level rest).map
            (fun r => s ++ newlinesStr n.span.endP.row m ++ r)) := by
  obtain ⟨node, span⟩ := n
  cases node <;> first | rfl | exact Bool.noConfusion h

/-- Unfolding of `reformat_top_level` on a `"\n"` node followed by a
sibling: one newline, then the rest. -/
theorem reformat_top_level_cons_newline (n y : TNode) (ys : List TNode)
    (h : n.node = .newlineD) :
    reformat_top_level (n :: y :: ys) =
      (reformat_top_level (y :: ys)).map (fun r => "\n" ++ r) := by
  obtain ⟨node, span⟩ := n
  have h' : node = .newlineD := h
  subst h'
  rfl

/-- A run of `"\n"` nodes before a non-final node renders one newline
each. -/
theorem reformat_blank_run (m : TNode) (rest : List TNode) (r : String)
    (hr : reformat_top_level (m :: rest) = .ok r) :
    ∀ blanks : List TNode, (∀ b ∈ blanks, b.node = .newlineD) →
      reformat_top_level (blanks ++ m :: rest) =
        .ok (⟨List.replicate blanks.length '\n'⟩ ++ r) := by
  intro blanks
  induction blanks with
  | nil => intro _; exact hr
  | cons b bs ih =>
    intro hall
    have hb : b.node = .newlineD := hall b (List.mem_cons_self b bs)
    have hrec := ih (fun x hx => hall x (List.mem_cons_of_mem b hx))
    obtain ⟨y, ys, hys⟩ : ∃ y ys, bs ++ m :: rest = y :: ys := by
      cases bs with
      | nil => exact ⟨m, rest, rfl⟩
      | cons b' bs' => exact ⟨b', bs' ++ m :: rest, rfl⟩
    rw [List.cons_append, hys, reformat_top_level_cons_newline b y ys hb,
      ← hys, hrec]
    show Except.ok ("\n" ++ (⟨List.replicate bs.length '\n'⟩ ++ r)) = _
    rw [← String.append_assoc]
    rw [show ("\n" ++ (⟨List.replicate bs.length '\n'⟩ : String)) =
      (⟨List.replicate (bs.length + 1) '\n'⟩ : String) from
        String.ext_iff.mpr (by
          rw [String.data_append, List.replicate_succ]
          rfl)]
    rfl

/-! ### C4: amount-column alignment in `reformat_postings` -/

/-- C4 (amended): a posting with an amount is emitted as two spaces, the
account, one space, then the integer part right-aligned in a field of
`50 - 4 - len(account)` columns, the decimal point, the fraction, a space
and the currency (then optional cost and comment); whenever the account is
at most 46 characters and the integer part fits in the field, the decimal
point lands at character index 49 (column 50).  A posting with no amount
emits only its account (plus its cost and comment parts, when present). -/
theorem c4_decimal_point_alignment (p : PostingNode) (account : String)
    (hacc : p.accounts.head? = some account) :
    (p.amounts.head? = none →
      formatPosting p = .ok ("  " ++ account ++ "" ++ costStr p ++ commentStr p)) ∧
    (∀ (a : AmountNode) (numberChild currencyChild : Leaf)
        (numerator denominator : List Char),
      p.amounts.head? = some a →
      a.children = [numberChild, currencyChild] →
      account.length ≤ 46 →
      splitAtDot numberChild.text.data = some (numerator, denominator) →
      numerator.length ≤ 46 - account.length →
      formatPosting p =
        .ok ("  " ++ account ++
          (" " ++ rightAlign (46 - account.length) ⟨numerator⟩ ++ "." ++
            ⟨denominator⟩ ++ " " ++ currencyChild.text) ++
          costStr p ++ commentStr p) ∧
      ("  " ++ account ++ (" " ++ rightAlign (46 - account.length)
          ⟨numerator⟩)).length = 49) := by
  constructor
  · intro hnone
    simp only [formatPosting, hacc, hnone]
  · intro a numberChild currencyChild numerator denominator ham hch hlen hdot
      hnum
    constructor
    · simp only [formatPosting, hacc, ham, hch]
      rw [if_neg (by omega)]
      simp only [hdot]
    · rw [String.length_append, String.length_append, String.length_append,
        rightAlign_length hnum]
      have h2 : ("  " : String).length = 2 := rfl
      have h1 : (" " : String).length = 1 := rfl
      omega

/-- C4 counterexample: for a posting whose account has 46 characters and
whose number is `100.00`, the emitted line's first decimal point sits at
character index 52, not 49 — so the point does *not* land at column 50
regardless of the account name's length. -/
theorem c4_counterexample_long_account_shifts_point :
    (formatPosting
        { accounts := [⟨List.replicate 46 'a'⟩]
          amounts := [⟨[⟨"number", "100.00"⟩, ⟨"currency", "EUR"⟩]⟩]
          cost_spec := none, comment := none }).toOption.map
      (fun s => (splitAtDot s.data).map (fun q => q.1.length)) =
      some (some 52) ∧ (52 : Nat) ≠ 49 :=
  ⟨by decide, by decide⟩

/-- Witness for C4 on the fixture posting `Expenses:Cash  100.00 EUR`:
the amount branch applies and the decimal point lands at index 49. -/
theorem c4_witness :
    ∃ s, formatPosting
        { accounts := ["Expenses:Cash"]
          amounts := [⟨[⟨"number", "100.00"⟩, ⟨"currency", "EUR"⟩]⟩]
          cost_spec := none, comment := none } = .ok s ∧
      (splitAtDot s.data).map (fun q => q.1.length) = some 49 := by
  obtain ⟨heq, hlen⟩ :=
    (c4_decimal_point_alignment
        { accounts := ["Expenses:Cash"]
          amounts := [⟨[⟨"number", "100.00"⟩, ⟨"currency", "EUR"⟩]⟩]
          cost_spec := none, comment := none }
        "Expenses:Cash" rfl).2
      ⟨[⟨"number", "100.00"⟩, ⟨"currency", "EUR"⟩]⟩ ⟨"number", "100.00"⟩
      ⟨"currency", "EUR"⟩ "100".data "00".data rfl rfl (by decide) rfl
      (by decide)
  exact ⟨_, heq, by decide⟩

/-! ### C10: `usize` underflow on long account names -/

/-- C10: for a posting with an amount (of the asserted two-child shape)
whose account text is longer than 46 characters, the width computation
`50 - 4 - len(account)` underflows `usize`, so formatting the posting —
and with it the whole `reformat` call on a transaction containing it —
aborts by panic instead of returning text or an `UnexpectedFormat`
error. -/
theorem c10_width_underflow_panics (p : PostingNode) (account : String)
    (a : AmountNode)
    (hacc : p.accounts.head? = some account)
    (hlen : 46 < account.length)
    (ham : p.amounts.head? = some a)
    (hch : a.children.length = 2) :
    formatPosting p = .error .panic ∧
    ∀ (t : TxnNode) (date txn payee : String) (sp : Span)
      (rest : List TNode),
      t.date = some date → t.txn = some txn →
      t.txn_strings = some [payee] →
      t.posting_or_kv_list.head? = some [PKChild.posting p] →
      reformat_top_level (⟨.transactionD t, sp⟩ :: rest) = .error .panic := by
  obtain ⟨numberChild, currencyChild, hch2⟩ := List.length_eq_two.mp hch
  have hfmt : formatPosting p = .error .panic := by
    simp only [formatPosting, hacc, ham, hch2]
    rw [if_pos (by omega)]
  refine ⟨hfmt, ?_⟩
  intro t date txn payee sp rest hdate htxn hts hpl
  rw [reformat_top_level_cons_handled ⟨.transactionD t, sp⟩ rest rfl]
  have hrp : reformat_postings [PKChild.posting p] = .error .panic := by
    simp only [reformat_postings, postingsOf, List.filterMap,
      collectPostings, hfmt]
  have hrender : renderNode (.transactionD t) = .error .panic := by
    simp only [renderNode, hdate, htxn, hts, hpl, hrp]
  rw [hrender]
  rfl

/-- Witness for C10: a concrete posting with a 47-character account and an
amount panics, both alone and inside a transaction. -/
theorem c10_witness :
    formatPosting
      { accounts := [⟨List.replicate 47 'a'⟩]
        amounts := [⟨[⟨"number", "100.00"⟩, ⟨"currency", "EUR"⟩]⟩]
        cost_spec := none, comment := none } = .error .panic ∧
    reformat_top_level
      [⟨.transactionD
          { date := some "2021-07-10", txn := some "*"
            txn_strings := some ["\"foo\""]
            posting_or_kv_list :=
              [[PKChild.posting
                  { accounts := [⟨List.replicate 47 'a'⟩]
                    amounts := [⟨[⟨"number", "100.00"⟩, ⟨"currency", "EUR"⟩]⟩]
                    cost_spec := none, comment := none }]] },
        ⟨⟨0, 0⟩, ⟨3, 0⟩⟩⟩] = .error .panic := by
  have h := c10_width_underflow_panics
    { accounts := [⟨List.replicate 47 'a'⟩]
      amounts := [⟨[⟨"number", "100.00"⟩, ⟨"currency", "EUR"⟩]⟩]
      cost_spec := none, comment := none }
    ⟨List.replicate 47 'a'⟩ ⟨[⟨"number", "100.00"⟩, ⟨"currency", "EUR"⟩]⟩
    rfl (by decide) rfl rfl
  exact ⟨h.1, h.2
    { date := some "2021-07-10", txn := some "*"
      txn_strings := some ["\"foo\""]
      posting_or_kv_list :=
        [[PKChild.posting
            { accounts := [⟨List.replicate 47 'a'⟩]
              amounts := [⟨[⟨"number", "100.00"⟩, ⟨"currency", "EUR"⟩]⟩]
              cost_spec := none, comment := none }]] }
    "2021-07-10" "*" "\"foo\"" ⟨⟨0, 0⟩, ⟨3, 0⟩⟩ [] rfl rfl rfl rfl⟩

/-! ### C6: blank lines between top-level items are reproduced exactly -/

/-- C6: between a handled directive and the next emitted top-level item,
with the run of `"\n"` token nodes the parser put between them (one per
line break, the first starting on the directive's end row, the next item
starting `blanks.length` rows later), the output separator is exactly
`next.start.row - prev.end.row + 1` newline characters: the source's blank
line count plus the one line terminator — never more and never fewer,
zero blank lines included. -/
theorem c6_blank_lines_reproduced (n : TNode) (blanks : List TNode)
    (m : TNode) (rest : List TNode) (s r : String)
    (hh : handledKind n.node = true)
    (hs : renderNode n.node = .ok s)
    (hblanks : ∀ b ∈ blanks, b.node = .newlineD)
    (hfirst : ∀ b, blanks.head? = some b →
      b.span.startP.row = n.span.endP.row)
    (hrow : m.span.startP.row = n.span.endP.row + blanks.length)
    (hr : reformat_top_level (m :: rest) = .ok r) :
    reformat_top_level (n :: (blanks ++ m :: rest)) =
      .ok (s ++
        (⟨List.replicate (m.span.startP.row - n.span.endP.row + 1) '\n'⟩ :
          String) ++ r) := by
  rw [reformat_top_level_cons_handled n _ hh, hs]
  cases hbl : blanks with
  | nil =>
    subst hbl
    show (reformat_top_level (m :: rest)).map
      (fun r => s ++ newlinesStr n.span.endP.row m ++ r) = _
    rw [hr]
    show Except.ok (s ++ newlinesStr n.span.endP.row m ++ r) = _
    rw [show newlinesStr n.span.endP.row m =
      (⟨List.replicate (m.span.startP.row - n.span.endP.row + 1) '\n'⟩ :
        String) from rfl]
  | cons b bs =>
    subst hbl
    have hb : b.span.startP.row = n.span.endP.row := hfirst b rfl
    have hrun := reformat_blank_run m rest r hr (b :: bs) hblanks
    show (reformat_top_level ((b :: bs) ++ m :: rest)).map
      (fun r => s ++ newlinesStr n.span.endP.row b ++ r) = _
    rw [hrun]
    show Except.ok (s ++ newlinesStr n.span.endP.row b ++
      ((⟨List.replicate (b :: bs).length '\n'⟩ : String) ++ r)) = _
    have hsep : m.span.startP.row - n.span.endP.row + 1 =
        1 + (b :: bs).length := by
      rw [hrow, Nat.add_sub_cancel_left]
      omega
    rw [hsep]
    have hnl : newlinesStr n.span.endP.row b = "\n" := by
      unfold newlinesStr
      rw [hb, Nat.sub_self]
      decide
    rw [hnl]
    rw [String.append_assoc s, ← String.append_assoc ("\n" : String)]
    rw [show (("\n" : String) ++
        (⟨List.replicate (b :: bs).length '\n'⟩ : String)) =
      (⟨List.replicate (1 + (b :: bs).length) '\n'⟩ : String) from
        String.ext_iff.mpr (by
          rw [String.data_append, Nat.add_comm, List.replicate_succ]
          rfl)]
    rw [← String.append_assoc]

/-- The first plugin directive of the C6 fixture, ending on row 1. -/
def c6p1 : TNode :=
  { node := .pluginD [⟨"plugin", "plugin"⟩, ⟨"string", "\"p\""⟩]
    span := ⟨⟨0, 0⟩, ⟨1, 0⟩⟩ }

/-- The blank-line token of the C6 fixture, on row 1. -/
def c6nl : TNode := { node := .newlineD, span := ⟨⟨1, 0⟩, ⟨2, 0⟩⟩ }

/-- The second plugin directive of the C6 fixture, starting on row 2. -/
def c6p2 : TNode :=
  { node := .pluginD [⟨"plugin", "plugin"⟩, ⟨"string", "\"q\""⟩]
    span := ⟨⟨2, 0⟩, ⟨3, 0⟩⟩ }

/-- Witness for C6: one blank line between the two plugins of the fixture
is reproduced as exactly one blank line (two newline characters). -/
theorem c6_witness :
    reformat_top_level [c6p1, c6nl, c6p2] =
      .ok "plugin \"p\"\n\nplugin \"q\"" := by
  have h := c6_blank_lines_reproduced c6p1 [c6nl] c6p2 [] "plugin \"p\""
    "plugin \"q\"" rfl rfl
    (by intro b hb; rw [List.mem_singleton] at hb; rw [hb]; rfl)
    (by intro b hb; cases hb; rfl) rfl rfl
  rw [show ([c6nl] ++ [c6p2] : List TNode) = [c6nl, c6p2] from rfl] at h
  rw [h]
  rfl

/-! ### C9: what happens at an unrecognized top-level node -/

/-- A top-level kind outside the set `reformat_top_level` handles —
neither one of the five directive branches nor the `"\n"` branch. -/
def unhandledKind : TopNode → Bool
  | .commodityD _ => true
  | .otherD => true
  | _ => false

/-- A node of unhandled kind renders the empty string and stops the
traversal: nothing after it is inspected. -/
theorem reformat_top_level_unhandled (u : TNode)
    (hu : unhandledKind u.node = true) (rest : List TNode) :
    reformat_top_level (u :: rest) = .ok "" := by
  obtain ⟨node, span⟩ := u
  cases node <;> first | rfl | exact Bool.noConfusion hu

/-- C9 (amended): a top-level node of a kind outside the handled set is
rendered as empty, and the traversal *ends* there instead of continuing:
the rendering of a list with an unhandled node is wholly independent of
everything after that node, so recognized directives after it are never
emitted. -/
theorem c9_unhandled_ends_traversal (u : TNode)
    (hu : unhandledKind u.node = true) :
    (∀ rest, reformat_top_level (u :: rest) = .ok "") ∧
    (∀ (ns rest rest' : List TNode),
      reformat_top_level (ns ++ u :: rest) =
        reformat_top_level (ns ++ u :: rest')) := by
  refine ⟨reformat_top_level_unhandled u hu, ?_⟩
  intro ns
  induction ns with
  | nil =>
    intro rest rest'
    rw [List.nil_append, List.nil_append,
      reformat_top_level_unhandled u hu rest,
      reformat_top_level_unhandled u hu rest']
  | cons n ns ih =>
    intro rest rest'
    rw [List.cons_append, List.cons_append]
    by_cases hh : handledKind n.node = true
    · rw [reformat_top_level_cons_handled n _ hh,
        reformat_top_level_cons_handled n _ hh]
      cases hrn : renderNode n.node with
      | error e => rfl
      | ok s =>
        cases hns : ns with
        | nil =>
          simp only [List.nil_append]
          show (reformat_top_level (u :: rest)).map _ =
            (reformat_top_level (u :: rest')).map _
          rw [reformat_top_level_unhandled u hu rest,
            reformat_top_level_unhandled u hu rest']
        | cons n' ns' =>
          subst hns
          exact congrArg (Except.map _) (ih rest rest')
    · by_cases hnl : n.node = .newlineD
      · cases hns : ns with
        | nil =>
          rw [List.nil_append, List.nil_append,
            reformat_top_level_cons_newline n u rest hnl,
            reformat_top_level_cons_newline n u rest' hnl,
            reformat_top_level_unhandled u hu rest,
            reformat_top_level_unhandled u hu rest']
        | cons n' ns' =>
          subst hns
          rw [List.cons_append, List.cons_append,
            reformat_top_level_cons_newline n n'
              (ns' ++ u :: rest) hnl,
            reformat_top_level_cons_newline n n'
              (ns' ++ u :: rest') hnl]
          exact congrArg (Except.map _) (ih rest rest')
      · have hun : unhandledKind n.node = true := by
          obtain ⟨node, span⟩ := n
          cases node <;> simp_all [handledKind, unhandledKind]
        rw [reformat_top_level_unhandled n hun,
          reformat_top_level_unhandled n hun]

/-- The unrecognized node of the C9 fixture (a `commodity` directive). -/
def c9com : TNode := { node := .commodityD (some "USD"), span := ⟨⟨1, 0⟩, ⟨2, 0⟩⟩ }

/-- The plugin directive after the unrecognized node of the C9 fixture. -/
def c9p2 : TNode :=
  { node := .pluginD [⟨"plugin", "plugin"⟩, ⟨"string", "\"b\""⟩]
    span := ⟨⟨2, 0⟩, ⟨3, 0⟩⟩ }

/-- Whether `sub` occurs as a contiguous run inside `l`. -/
def occursIn (sub : List Char) : List Char → Bool
  | [] => sub.isPrefixOf []
  | c :: t => sub.isPrefixOf (c :: t) || occursIn sub t

/-- C9 counterexample: with a recognized plugin, then a `commodity`
directive (a kind outside the handled set), then another plugin, the
output ends at the commodity node — the second plugin is not emitted, so
traversal does not continue past an unrecognized node. -/
theorem c9_counterexample_directive_after_unknown_dropped :
    reformat_top_level [c6p1, c9com, c9p2] = .ok "plugin \"p\"\n" ∧
    occursIn ("plugin \"b\"" : String).data
      ("plugin \"p\"\n" : String).data = false :=
  ⟨by decide, by decide⟩

/-- Witness for C9 (amended) on the fixture: the commodity node renders
empty whatever follows, and the output of the fixture list does not change
when everything after the commodity node is replaced. -/
theorem c9_witness :
    reformat_top_level [c9com, c9p2] = .ok "" ∧
    reformat_top_level [c6p1, c9com, c9p2] =
      reformat_top_level [c6p1, c9com] :=
  ⟨(c9_unhandled_ends_traversal c9com rfl).1 [c9p2],
   (c9_unhandled_ends_traversal c9com rfl).2 [c6p1] [c9p2] []⟩

/-! ### C7: idempotence of reformatting

`reformat` re-parses its own output with the external `tree-sitter`
grammar, which is not part of this repository.  The reparse is therefore
modelled from the spec: a parser for exactly the canonical forms the
reformatter emits (section 4.4 of the spec lists them line by line).  The
reformatter reads nothing of a node's span except the row difference
between consecutive top-level nodes, and a reparse of canonical text is
contiguous — every such difference is zero — so the modelled parser gives
every node the degenerate zero span, which renders identically. -/

/-- A token: nonempty and free of spaces and newlines. -/
def isTokL (l : List Char) : Bool :=
  !l.isEmpty && l.all (fun c => !(c == ' ') && !(c == '\n'))

/-- Free of newlines. -/
def noNL (l : List Char) : Bool := l.all (fun c => !(c == '\n'))

/-- The tail of a quoted string: characters that are neither `"` nor a
newline, then a closing `"`. -/
def quotedTail : List Char → Bool
  | [] => false
  | [c] => c == '"'
  | c :: rest => !(c == '"') && !(c == '\n') && quotedTail rest

/-- Whether a payee string is a well-formed quoted token: a `"`, a
quote-free newline-free body, a closing `"`. -/
def isQuoted (l : List Char) : Bool :=
  match l with
  | c :: rest => (c == '"') && quotedTail rest
  | [] => false

/-- The tail of a brace-delimited cost specification: characters that are
neither `}` nor a newline, then a closing `}`. -/
def braceTail : List Char → Bool
  | [] => false
  | [c] => c == '}'
  | c :: rest => !(c == '}') && !(c == '\n') && braceTail rest

/-- Whether a cost-specification string is well formed for the canonical
line: a `{`, a `}`-free newline-free body, a closing `}`. -/
def isBraced (l : List Char) : Bool :=
  match l with
  | c :: rest => (c == '{') && braceTail rest
  | [] => false

/-- One of the directive keywords that open a line of their own. -/
def keywordTok (d : String) : Bool :=
  d == "option" || d == "plugin" || d == "include"

/-- Textual sanity of a posting node: the fields the reformatter prints
are tokens or start where the canonical parser expects them to; a cost
specification is brace-delimited and rides on an amount. -/
def wfPosting (p : PostingNode) : Bool :=
  (match p.accounts.head? with
   | some acc => isTokL acc.data && !(acc.data.head? == some ';')
   | none => false) &&
  (match p.cost_spec with
   | some cs => isBraced cs.data
   | none => true) &&
  (match p.comment with
   | some c => noNL c.data && (c.data.head? == some ';')
   | none => true) &&
  (match p.amounts.head? with
   | some a =>
     match a.children with
     | [nc, cc] =>
       isTokL nc.text.data && !(nc.text.data.head? == some ';') &&
         isTokL cc.text.data
     | _ => false
   | none => p.cost_spec.isNone)

/-- Textual sanity of a posting-list child. -/
def wfPK : PKChild → Bool
  | .posting p => wfPosting p
  | .comment c => noNL c.data && (c.data.head? == some ';')
  | .other => true

/-- The comment children of a posting list, in order. -/
def commentsOf (l : List PKChild) : List String :=
  l.filterMap fun c =>
    match c with
    | .comment text => some text
    | _ => none

/-- Textual sanity of a transaction node: fields present and token-shaped,
the payee quoted, at most one comment child and at least one posting in
the first posting list. -/
def wfTxn (t : TxnNode) : Bool :=
  (match t.date with
   | some d => isTokL d.data && !keywordTok d
   | none => false) &&
  (match t.txn with
   | some x => isTokL x.data && !(x == "open")
   | none => false) &&
  (match t.txn_strings with
   | some [p] => isQuoted p.data
   | some [p, n] => isQuoted p.data && noNL n.data
   | _ => false) &&
  (match t.posting_or_kv_list.head? with
   | some pl =>
     (commentsOf pl).length ≤ 1 && !(postingsOf pl).isEmpty &&
       pl.all wfPK
   | none => false)

/-- Textual sanity of a top-level node: its kind is one the reformatter
handles (or a `"\n"` token) and the texts it prints contain no newline and
are token-shaped where the canonical line forms require it. -/
def wfNode : TopNode → Bool
  | .optionD key value =>
    (match key with
     | some k => isTokL k.data
     | none => false) &&
    (match value with
     | some v => noNL v.data
     | none => false)
  | .pluginD children =>
    match children.get? 1 with
    | some c => noNL c.text.data
    | none => false
  | .includeD children =>
    match children.get? 1 with
    | some c => noNL c.text.data
    | none => false
  | .openD date account =>
    (match date with
     | some d => isTokL d.data && !keywordTok d
     | none => false) &&
    (match account with
     | some a => noNL a.data
     | none => false)
  | .transactionD t => wfTxn t
  | .newlineD => true
  | _ => false

theorem splitAtDot_join {a b : List Char}
    (h : ∀ c ∈ a, (c == '.') = false) :
    splitAtDot (a ++ '.' :: b) = some (a, b) := by
  induction a with
  | nil =>
    rw [List.nil_append]
    unfold splitAtDot
    rw [if_pos (by rfl)]
  | cons c t ih =>
    show splitAtDot (c :: (t ++ '.' :: b)) = _
    unfold splitAtDot
    rw [if_neg (by
      rw [h c (List.mem_cons_self c t)]
      exact Bool.false_ne_true)]
    rw [ih (fun x hx => h x (List.mem_cons_of_mem c hx))]
    rfl

theorem splitAtDot_none {l : List Char}
    (h : ∀ c ∈ l, (c == '.') = false) : splitAtDot l = none := by
  induction l with
  | nil => rfl
  | cons c t ih =>
    unfold splitAtDot
    rw [if_neg (by
      rw [h c (List.mem_cons_self c t)]
      exact Bool.false_ne_true)]
    rw [ih (fun x hx => h x (List.mem_cons_of_mem c hx))]
    rfl

theorem postingsOf_comments_prefix (cs : List String) (l : List PKChild) :
    postingsOf (cs.map PKChild.comment ++ l) = postingsOf l := by
  induction cs with
  | nil => rfl
  | cons c ct ih =>
    rw [List.map_cons, List.cons_append, postingsOf, List.filterMap_cons]
    simp only []
    rw [← postingsOf, ih]

theorem commentsRender_parts (cs : List String) (qs : List PostingNode) :
    ((cs.map PKChild.comment ++ qs.map PKChild.posting).filterMap fun c =>
      match c with
      | PKChild.comment text => some ("  " ++ text ++ "\n")
      | _ => none) =
    cs.map (fun text => "  " ++ text ++ "\n") := by
  induction cs with
  | nil =>
    rw [List.map_nil, List.nil_append, List.map_nil]
    induction qs with
    | nil => rfl
    | cons q qt ihq =>
      rw [List.map_cons, List.filterMap_cons]
      simp only []
      exact ihq
  | cons c ct ih =>
    rw [List.map_cons, List.cons_append, List.filterMap_cons]
    simp only []
    rw [ih, List.map_cons]

theorem wfNode_handled_or_newline {n : TopNode} (h : wfNode n = true) :
    handledKind n = true ∨ n = .newlineD := by
  cases n with
  | optionD k v => exact Or.inl rfl
  | pluginD c => exact Or.inl rfl
  | includeD c => exact Or.inl rfl
  | openD d a => exact Or.inl rfl
  | commodityD c => exact Bool.noConfusion h
  | transactionD t => exact Or.inl rfl
  | newlineD => exact Or.inr rfl
  | otherD => exact Bool.noConfusion h

end BeanLS
